import Mathlib

/-!
Verification of the parkr safety-verified space-reclamation engine.

Shallow embedding of the Go sources:
  * `core/hash.go`        — `ComputeProjectHash` (tree content hash)
  * `core/archive.go`     — `GetNewestMtime`, `GetDirSize`
  * `core/report.go`      — `determineSafetyStatus`, candidate pool
  * `core/prune.go`       — `SelectPruneCandidates`, `ExecutePrune`,
                            `deleteSingleProject`, `verifyBeforeDeletion`
  * `core/interactive.go` — `InteractiveSelector`, `handleInput`, `GetSelected`
  * `cli/prune.go`        — `runInteractiveMode`

Modelling conventions:
  * Timestamps (`time.Time`) are `Int` (one linear clock); `time.After` is
    strict `>`; the zero `time.Time` is `0`.
  * SHA-256 (`crypto/sha256`, an external library) is an explicit `digest`
    parameter `List Nat → List Nat` on byte lists; hex encoding is injective,
    so recorded hash strings are modelled as the digest byte lists themselves.
  * A readable directory tree is an `FsTree`; I/O errors during traversal are
    outside the model (the claims under verification do not depend on them).
  * Fallible Go functions return `Except String` / `Option`; a Go panic is
    modelled as the `Option.none` result of the enclosing operation.
-/

/-- Byte string of a Go string. Go compares strings bytewise; for the
ASCII names used here, codepoint order and byte order coincide. -/
def strBytes (s : String) : List Nat :=
  s.data.map Char.toNat

/-- Bytewise lexicographic strict order on byte lists (Go `<` on strings). -/
def lexLt : List Nat → List Nat → Bool
  | [], [] => false
  | [], _ :: _ => true
  | _ :: _, [] => false
  | a :: as, b :: bs => if a < b then true else if b < a then false else lexLt as bs

/-- Go string `<` (bytewise). -/
def strLtB (a b : String) : Bool :=
  lexLt (strBytes a) (strBytes b)

/-- A node of the local directory tree, as the Go traversals classify entries:
regular file, symbolic link (never followed), other non-regular non-directory
entry (device, socket, FIFO), or directory with named children. -/
inductive FsTree where
  | file (mtime : Int) (content : List Nat)
  | symlink (mtime : Int)
  | special (mtime : Int)
  | dir (mtime : Int) (children : List (String × FsTree))

/-- Relative-path join, as `filepath.Rel` produces inside `ComputeProjectHash`:
top-level entries are bare names, deeper entries are `"sub/name"`. -/
def pathAppend (pre n : String) : String :=
  if pre = "" then n else pre ++ "/" ++ n

mutual

/-- The file-collecting walk of `ComputeProjectHash` (core/hash.go,
`filepath.WalkDir` callback): symlinks are skipped entirely, non-regular
entries are skipped, every regular file contributes its relative path and
content. -/
def collectFiles (pre : String) : FsTree → List (String × List Nat)
  | .file _ c => [(pre, c)]
  | .symlink _ => []
  | .special _ => []
  | .dir _ ch => collectFilesChildren pre ch

def collectFilesChildren (pre : String) : List (String × FsTree) → List (String × List Nat)
  | [] => []
  | (n, t) :: rest => collectFiles (pathAppend pre n) t ++ collectFilesChildren pre rest

end

mutual

/-- Modification times of every non-directory entry, in walk order —
the entries `filepath.Walk` hands to `GetNewestMtime`'s callback with
`!info.IsDir()`: regular files, symlinks (their own lstat mtime; `Walk` does
not follow them) and special files alike. -/
def walkNonDirMtimes : FsTree → List Int
  | .file m _ => [m]
  | .symlink m => [m]
  | .special m => [m]
  | .dir _ ch => walkNonDirMtimesChildren ch

def walkNonDirMtimesChildren : List (String × FsTree) → List Int
  | [] => []
  | (_, t) :: rest => walkNonDirMtimes t ++ walkNonDirMtimesChildren rest

end

mutual

/-- Modification times of regular files only — the traversal rule of the hash
engine (symlinks and other non-regular entries skipped). Used to state what
the spec asserts about the mtime method's traversal. -/
def regularFileMtimes : FsTree → List Int
  | .file m _ => [m]
  | .symlink _ => []
  | .special _ => []
  | .dir _ ch => regularFileMtimesChildren ch

def regularFileMtimesChildren : List (String × FsTree) → List Int
  | [] => []
  | (_, t) :: rest => regularFileMtimes t ++ regularFileMtimesChildren rest

end

/-- Insertion into the path-sorted file-hash list (`sort.Slice` on
`fileHashes[i].path < fileHashes[j].path` in core/hash.go; paths in a real
tree are distinct, so the sorted result is unique). -/
def insertByPath (e : String × List Nat) : List (String × List Nat) → List (String × List Nat)
  | [] => [e]
  | f :: fs => if strLtB e.1 f.1 then e :: f :: fs else f :: insertByPath e fs

/-- Sort file-hash entries by relative path. -/
def sortByPath (l : List (String × List Nat)) : List (String × List Nat) :=
  l.foldr insertByPath []

/-- The byte stream fed to the project-level hasher: for each entry in sorted
order, `relative_path || 0x00 || file_digest` (core/hash.go lines 72-78). -/
def treeDigestInput : List (String × List Nat) → List Nat
  | [] => []
  | (p, h) :: rest => strBytes p ++ [0] ++ h ++ treeDigestInput rest

/-- Model of `core.ComputeProjectHash` (core/hash.go): collect regular files
(skipping symlinks and non-regular entries), error when no regular file was
found, otherwise hash each file's content, sort by relative path and digest
the combined stream. `digest` stands for SHA-256. -/
def ComputeProjectHash (digest : List Nat → List Nat) (projectPath : String)
    (root : FsTree) : Except String (List Nat) :=
  let files := collectFiles "" root
  if files.length = 0 then
    Except.error ("project directory is empty or contains no regular files: " ++ projectPath)
  else
    Except.ok (digest (treeDigestInput (sortByPath (files.map (fun f => (f.1, digest f.2))))))

/-- A concrete digest function for evaluating the model on closed inputs
(the claims under verification depend only on digest equality). -/
def idDigest : List Nat → List Nat := fun l => l

/-- Model of `core.GetNewestMtime`'s fold (core/archive.go lines 54-76): the
running maximum starts at `newestTime = 0` with a nil `os.FileInfo`, and only
entries with mtime strictly above the running value replace it. The returned
value is the `os.FileInfo` interface stored in `newest` — `none` exactly when
no entry had mtime `> 0` (in particular when the tree has no non-directory
entries). The Go function returns `&newest`: a non-nil pointer to this
possibly-nil interface. -/
def GetNewestMtime (root : FsTree) : Option Int :=
  ((walkNonDirMtimes root).foldl
    (fun acc m => if m > acc.1 then (m, some m) else acc) ((0 : Int), none)).2

/-- Newest modification time over regular files only, skipping symlinks and
other non-regular entries — the traversal rule of the hash engine, which the
spec (§4.2 step 4) asserts the mtime method shares. Stated from the spec's
words, for comparison against `GetNewestMtime`. -/
def specNewestMtimeSkippingSymlinks (root : FsTree) : Option Int :=
  match regularFileMtimes root with
  | [] => none
  | m :: ms => some (ms.foldl max m)

/-- The per-project persisted record (`core.Project`, state.go). Hash strings
are modelled as digest byte lists (hex encoding is injective). -/
structure Project where
  localPath : String := ""
  master : String := ""
  archiveCategory : String := ""
  grabbedAt : Option Int := none
  lastParkAt : Option Int := none
  archiveContentHash : Option (List Nat) := none
  localContentHash : Option (List Nat) := none
  localHashComputedAt : Option Int := none
  lastParkMtime : Option Int := none
  noHashMode : Bool := false
  isGrabbed : Bool := false
deriving DecidableEq

/-- Model of `core.verifyBeforeDeletion` (core/prune.go lines 548-590).
`fs` is the result of `os.Stat`-ing and reading `project.LocalPath`
(`none` = path missing). The overall `none` result models the Go panic:
`GetNewestMtime` returns `&newest`, a pointer that is never nil when the walk
succeeded, so the guard `newest == nil` cannot fire and `(*newest).ModTime()`
dereferences a nil `os.FileInfo` interface whenever the walk saw no
non-directory entry. -/
def verifyBeforeDeletion (digest : List Nat → List Nat) (project : Project)
    (fs : Option FsTree) (noHash : Bool) : Option (Bool × String) :=
  match project.lastParkAt with
  | none => some (false, "Never checked in")
  | some parkAt =>
    match fs with
    | none => some (false, "Local path not found")
    | some tree =>
      match GetNewestMtime tree with
      | none => none
      | some lastModified =>
        if noHash || project.noHashMode then
          match project.lastParkMtime with
          | some m =>
            if lastModified > m then some (false, "Has uncommitted work")
            else some (true, "Safe to delete")
          | none =>
            if lastModified > parkAt then some (false, "Has uncommitted work")
            else some (true, "Safe to delete")
        else
          match ComputeProjectHash digest project.localPath tree with
          | Except.error _ => some (false, "Error computing hash")
          | Except.ok currentHash =>
            match project.localContentHash with
            | none => some (false, "Has uncommitted work")
            | some lh =>
              if currentHash ≠ lh then some (false, "Has uncommitted work")
              else some (true, "Safe to delete")

/-- Model of `core.determineSafetyStatus` (core/report.go lines 694-731).
`tree` is the content of `project.LocalPath`; `lastModified` is the
caller-supplied newest-mtime value (`GenerateReport` passes the report's
`LastModified` field). -/
def determineSafetyStatus (digest : List Nat → List Nat) (project : Project)
    (tree : FsTree) (lastModified : Int) (recomputeHashes : Bool) : Bool × String :=
  match project.lastParkAt with
  | none => (false, "Never checked in")
  | some parkAt =>
    if recomputeHashes && !project.noHashMode then
      match ComputeProjectHash digest project.localPath tree with
      | Except.error _ => (false, "Error computing hash")
      | Except.ok currentHash =>
        match project.localContentHash with
        | none => (false, "Missing hash data")
        | some lh =>
          if currentHash ≠ lh then (false, "Has uncommitted work")
          else (true, "Safe to delete")
    else
      match project.lastParkMtime with
      | some m =>
        if lastModified > m then (false, "Has uncommitted work")
        else (true, "Safe to delete")
      | none =>
        if lastModified > parkAt then (false, "Has uncommitted work")
        else (true, "Safe to delete")

/-- The per-run report row (`core.ProjectReport`, core/report.go). -/
structure ProjectReport where
  name : String := ""
  localPath : String := ""
  localSize : Int := 0
  lastModified : Int := 0
  lastParkAt : Int := 0
  neverParked : Bool := false
  isSafeDelete : Bool := false
  status : String := ""
  noHashMode : Bool := false
deriving DecidableEq

/-- A report row plus the mutable selection flag (`core.PruneCandidate`). -/
structure PruneCandidate where
  report : ProjectReport
  selected : Bool
deriving DecidableEq

/-- The selection half of `core.PruneResult` (core/prune.go). -/
structure PruneResult where
  candidates : List PruneCandidate := []
  selectedProjects : List ProjectReport := []
  totalSelected : Int := 0
  targetBytes : Int := 0
  insufficientSpace : Bool := false
  noCandidates : Bool := false
deriving DecidableEq

/-- Ascending order on last-modified time — the comparator
`LastModified.Before` used by `GenerateReport` to sort the candidate pool and
by `SelectPruneCandidates` to sort the force-mode pool, stated non-strictly. -/
def oldestFirstLe (a b : ProjectReport) : Prop :=
  a.lastModified ≤ b.lastModified

instance : DecidableRel oldestFirstLe :=
  fun a b => inferInstanceAs (Decidable (a.lastModified ≤ b.lastModified))

instance : IsTotal ProjectReport oldestFirstLe :=
  ⟨fun a b => Int.le_total a.lastModified b.lastModified⟩

instance : IsTrans ProjectReport oldestFirstLe :=
  ⟨fun _ _ _ h h' => le_trans h h'⟩

/-- Sort the candidate pool oldest first (`sort.Slice` with
`LastModified.Before`; `sort.Slice` leaves tie order unspecified, the model
uses a stable insertion sort). -/
def sortOldestFirst (l : List ProjectReport) : List ProjectReport :=
  l.insertionSort oldestFirstLe

/-- Length of the prefix the greedy selection loop accepts: the loop checks
`totalSelected >= targetBytes` before each candidate and stops at the first
prefix whose accumulated size reaches the target (core/prune.go lines
432-440). `acc` is the bytes accumulated so far. -/
def shortestPrefixLen (target : Int) : List Int → Int → Nat
  | [], _ => 0
  | s :: rest, acc =>
    if acc ≥ target then 0 else shortestPrefixLen target rest (acc + s) + 1

/-- The greedy selection loop of `SelectPruneCandidates`: walk the sorted
pool, marking candidates selected and accumulating their sizes until the
accumulated total reaches the target; candidates after the break keep their
initial `Selected = false`. Returns (flagged candidates, selected reports,
accumulated bytes). -/
def greedyMark (target : Int) : List ProjectReport → Int →
    List PruneCandidate × List ProjectReport × Int
  | [], acc => ([], [], acc)
  | p :: rest, acc =>
    if acc ≥ target then
      ((p :: rest).map (fun q => { report := q, selected := false }), [], acc)
    else
      let r := greedyMark target rest (acc + p.localSize)
      ({ report := p, selected := true } :: r.1, p :: r.2.1, r.2.2)

/-- Model of `core.SelectPruneCandidates` (core/prune.go lines 392-450).
`pool` is the candidate pool: the safe candidates from `GenerateReport`
(already this function's callers' non-force path) or, under force, every
grabbed project; in both cases the pool is sorted oldest first with the same
comparator before the greedy loop runs. An empty pool short-circuits with
`noCandidates` (leaving `insufficientSpace` false). -/
def SelectPruneCandidates (pool : List ProjectReport) (targetBytes : Int) : PruneResult :=
  let sorted := sortOldestFirst pool
  if sorted.length = 0 then
    { targetBytes := targetBytes, noCandidates := true }
  else
    let r := greedyMark targetBytes sorted 0
    { candidates := r.1
      selectedProjects := r.2.1
      totalSelected := r.2.2
      targetBytes := targetBytes
      insufficientSpace := decide (r.2.2 < targetBytes)
      noCandidates := false }

/-- The persisted project table (`state.Projects`), name-keyed. -/
abbrev StateMap := List (String × Project)

/-- Map lookup (`state.Projects[name]`). -/
def lookupProj : StateMap → String → Option Project
  | [], _ => none
  | (n, p) :: rest, k => if n = k then some p else lookupProj rest k

/-- In-place mutation of one project record through its map entry
(`stateProject.IsGrabbed = false` acts through the `*Project` pointer). -/
def updateProj : StateMap → String → Project → StateMap
  | [], _, _ => []
  | (n, p) :: rest, k, v => if n = k then (n, v) :: rest else (n, p) :: updateProj rest k v

/-- The executor's view of the outside world: the digest primitive and the
filesystem / persistence collaborators `ExecutePrune` consumes
(`os.Stat` + tree content, `GetDirSize`, `os.RemoveAll`, `StateManager.Save`). -/
structure ExecEnv where
  digest : List Nat → List Nat
  fsAt : String → Option FsTree
  dirSize : String → Option Int
  removeOk : String → Bool
  saveOk : Bool

/-- The two option flags `ExecutePrune` reads (`core.PruneOptions`). -/
structure PruneOpts where
  noHash : Bool := false
  force : Bool := false
deriving DecidableEq

/-- One progress-callback invocation: the report passed to `on_progress`
together with `success` and `freed` (the callback's own behaviour is caller
code; `safeProgressFn` recovers from its panics, so invocations are recorded
unconditionally). -/
abbrev Progress := ProjectReport × Bool × Int

/-- The executor's running state: the in-memory project table plus the
`Deleted` / `FailedDeletions` / `TotalFreed` fields of `PruneResult` and the
trace of progress-callback invocations. -/
structure ExecTrace where
  state : StateMap
  deleted : List ProjectReport := []
  failedDeletions : List ProjectReport := []
  totalFreed : Int := 0
  progress : List Progress := []
deriving DecidableEq

/-- Record a failed deletion: append to `FailedDeletions` and invoke the
progress callback with `success = false`, `freed = 0` (core/prune.go
lines 483-484, 492-494, 501-503). -/
def recordFailure (t : ExecTrace) (pr : ProjectReport) : ExecTrace :=
  { t with failedDeletions := t.failedDeletions ++ [pr]
           progress := t.progress ++ [(pr, false, 0)] }

/-- Model of `core.deleteSingleProject` (core/prune.go lines 521-545): size
the directory (falling back to the report's size on error), delete it, mark
the in-memory project not grabbed, save the state. The state map in the
result reflects that the in-memory mutation precedes the save, so it persists
even when the save fails; the two failure modes return the distinct error
strings of the source. -/
def deleteSingleProject (env : ExecEnv) (sp : Project) (pr : ProjectReport)
    (name : String) (state : StateMap) : Except String Int × StateMap :=
  let currentSize := match env.dirSize pr.localPath with
    | some s => s
    | none => pr.localSize
  if env.removeOk pr.localPath then
    let state' := updateProj state name { sp with isGrabbed := false, grabbedAt := none }
    if env.saveOk then (Except.ok currentSize, state')
    else (Except.error "deleted directory but failed to save state", state')
  else (Except.error "failed to delete directory", state)

/-- The deletion arm shared by the force and non-force paths of
`ExecutePrune` (core/prune.go lines 498-513): on error the candidate is
recorded as an ordinary failed deletion — the distinct error value
`deleteSingleProject` returned is discarded (`freed, err := ...; if err != nil`)
— on success the candidate joins `Deleted`, `TotalFreed` grows and the loop
stops once the target is reached. -/
def attemptDelete (env : ExecEnv) (target : Int) (t : ExecTrace) (sp : Project)
    (pr : ProjectReport) : ExecTrace × Bool :=
  match deleteSingleProject env sp pr pr.name t.state with
  | (Except.error _, st') => (recordFailure { t with state := st' } pr, false)
  | (Except.ok freed, st') =>
    let t' := { t with state := st'
                       deleted := t.deleted ++ [pr]
                       totalFreed := t.totalFreed + freed
                       progress := t.progress ++ [(pr, true, freed)] }
    (t', decide (t'.totalFreed ≥ target))

/-- One iteration of the `ExecutePrune` loop over a selected candidate:
re-resolve against current state, re-verify unless force mode, then attempt
the deletion. The `Bool` is the early-stop flag; the overall `none` result is
the propagated `verifyBeforeDeletion` panic, which would crash the whole
batch. -/
def execStep (env : ExecEnv) (opts : PruneOpts) (target : Int) (t : ExecTrace)
    (pr : ProjectReport) : Option (ExecTrace × Bool) :=
  match lookupProj t.state pr.name with
  | none => some (recordFailure t pr, false)
  | some sp =>
    if opts.force then some (attemptDelete env target t sp pr)
    else
      match verifyBeforeDeletion env.digest sp (env.fsAt sp.localPath) opts.noHash with
      | none => none
      | some (isSafe, _) =>
        if isSafe then some (attemptDelete env target t sp pr)
        else some (recordFailure t pr, false)

/-- The `ExecutePrune` candidate loop: strictly sequential, stopping early
once freed bytes reach the target. -/
def execLoop (env : ExecEnv) (opts : PruneOpts) (target : Int) :
    List ProjectReport → ExecTrace → Option ExecTrace
  | [], t => some t
  | pr :: rest, t =>
    match execStep env opts target t pr with
    | none => none
    | some (t', stop) => if stop then some t' else execLoop env opts target rest t'

/-- Model of `core.ExecutePrune` (core/prune.go lines 458-517): reset the
result's `Deleted` / `FailedDeletions` / `TotalFreed` and run the candidate
loop over `result.SelectedProjects` against `result.TargetBytes`. -/
def ExecutePrune (env : ExecEnv) (state : StateMap) (result : PruneResult)
    (opts : PruneOpts) : Option ExecTrace :=
  execLoop env opts result.targetBytes result.selectedProjects { state := state }

/-- The interactive terminal selector's state (`core.InteractiveSelector`,
core/interactive.go): cursor, selection set (`map[int]bool`), running byte
total and the two terminal flags. -/
structure InteractiveSelector where
  candidates : List PruneCandidate
  cursor : Nat := 0
  selected : Finset Nat := ∅
  targetBytes : Int := 0
  totalSelected : Int := 0
  quitting : Bool := false
  confirmed : Bool := false
deriving DecidableEq

/-- Model of `core.NewInteractiveSelector` (core/interactive.go lines 25-44):
pre-seed the selection set with the auto-selected candidates and their byte
total. -/
def NewInteractiveSelector (cands : List PruneCandidate) (targetBytes : Int) :
    InteractiveSelector :=
  { candidates := cands
    cursor := 0
    selected := ((cands.enum.filter (fun x => x.2.selected)).map (fun x => x.1)).toFinset
    targetBytes := targetBytes
    totalSelected :=
      ((cands.enum.filter (fun x => x.2.selected)).map (fun x => x.2.report.localSize)).sum }

/-- Model of `InteractiveSelector.handleInput` (core/interactive.go lines
158-207), one keystroke given as its byte value; escape-sequence decoding in
`RunInteractiveSelection` delivers the final byte (`A`/`B`) of an arrow
sequence. Returns the new state and whether the loop continues (`false` ends
it). -/
def handleInput (m : InteractiveSelector) (key : Nat) : InteractiveSelector × Bool :=
  if key = 113 ∨ key = 27 then
    ({ m with quitting := true }, false)
  else if key = 107 ∨ key = 65 then
    ({ m with cursor := if m.cursor > 0 then m.cursor - 1 else m.cursor }, true)
  else if key = 106 ∨ key = 66 then
    ({ m with cursor := if m.cursor + 1 < m.candidates.length then m.cursor + 1 else m.cursor },
      true)
  else if key = 32 then
    (if h : m.cursor < m.candidates.length then
      let size := (m.candidates.get ⟨m.cursor, h⟩).report.localSize
      if m.cursor ∈ m.selected then
        { m with selected := m.selected.erase m.cursor, totalSelected := m.totalSelected - size }
      else
        { m with selected := insert m.cursor m.selected, totalSelected := m.totalSelected + size }
    else m, true)
  else if key = 97 then
    (if m.selected.card = m.candidates.length then
      { m with selected := ∅, totalSelected := 0 }
    else
      { m with selected := Finset.range m.candidates.length
               totalSelected := (m.candidates.map (fun c => c.report.localSize)).sum }, true)
  else if key = 13 ∨ key = 10 then
    ({ m with confirmed := true }, false)
  else (m, true)

/-- Model of `InteractiveSelector.GetSelected` (core/interactive.go lines
210-218): the candidates whose index is in the selection set, in list
order. -/
def GetSelected (m : InteractiveSelector) : List PruneCandidate :=
  (m.candidates.enum.filter (fun x => x.1 ∈ m.selected)).map (fun x => x.2)

/-- The keystroke loop of `RunInteractiveSelection` (core/interactive.go lines
258-293): feed keys one at a time until `handleInput` ends the loop or the
input is exhausted. -/
def runKeys (m : InteractiveSelector) : List Nat → InteractiveSelector
  | [] => m
  | k :: ks =>
    let r := handleInput m k
    if r.2 then runKeys r.1 ks else r.1

/-- How a `runInteractiveMode` invocation ended (cli/prune.go lines 151-197):
the user quit, nothing was selected, the final y/N confirmation was declined,
or `ExecutePrune` ran (with its resulting trace; `none` is the propagated
panic). -/
inductive InteractiveOutcome where
  | cancelled
  | nothingSelected
  | declined
  | executed (r : Option ExecTrace)
deriving DecidableEq

/-- Model of `cli.runInteractiveMode` after the selection loop has produced
its final selector (terminal I/O, rendering and raw-mode handling are outside
the model): a quit discards everything before any state is touched; otherwise
the user's selection replaces `result.SelectedProjects`, a y/N confirmation
gates execution, and only the `executed` arm runs `ExecutePrune` and can
change the project table. -/
def runInteractiveMode (env : ExecEnv) (opts : PruneOpts) (state : StateMap)
    (result : PruneResult) (sel : InteractiveSelector) (response : String) :
    InteractiveOutcome × StateMap :=
  if sel.quitting then (InteractiveOutcome.cancelled, state)
  else
    let selectedCandidates := GetSelected sel
    if selectedCandidates.length = 0 then (InteractiveOutcome.nothingSelected, state)
    else if response = "y" ∨ response = "Y" ∨ response = "yes" ∨ response = "Yes" then
      let result' := { result with
        selectedProjects := selectedCandidates.map (fun c => c.report)
        totalSelected := (selectedCandidates.map (fun c => c.report.localSize)).sum }
      match ExecutePrune env state result' opts with
      | some t => (InteractiveOutcome.executed (some t), t.state)
      | none => (InteractiveOutcome.executed none, state)
    else (InteractiveOutcome.declined, state)

deriving instance DecidableEq for Except

/-! Concrete fixtures used by witnesses and counterexamples. -/

/-- A project that was never parked (all other fields default). -/
def pNeverParked : Project := {}

/-- An arbitrary small directory tree. -/
def treeAny : FsTree := .dir 0 [("f.txt", .file 1 [0])]

/-- A directory containing a symlink and a subdirectory with a FIFO — a
recursive traversal that yields zero regular files. -/
def treeLinksOnly : FsTree := .dir 0 [("lnk", .symlink 5), ("sub", .dir 3 [("fifo", .special 2)])]

/-- A directory whose only entries are subdirectories: no non-directory entry
at all, so `GetNewestMtime`'s fold never stores a `FileInfo`. -/
def treeC10 : FsTree := .dir 7 [("sub", .dir 3 [])]

/-- A parked project whose local path exists (content supplied separately). -/
def pC10 : Project := { localPath := "lp", lastParkAt := some 0 }

/-- A one-file tree whose model tree hash under `idDigest` is `hC1`. -/
def treeC1 : FsTree := .dir 0 [("a.txt", .file 10 [1, 2])]

/-- `treeDigestInput` of `treeC1`'s single entry: bytes of "a.txt", a zero
separator, then the file digest. -/
def hC1 : List Nat := [97, 46, 116, 120, 116, 0, 1, 2]

/-- A hash-mode project whose recorded archive hash matches the current tree
hash of `treeC1` while the recorded local hash differs. -/
def pC1x : Project :=
  { localPath := "p", lastParkAt := some 0,
    archiveContentHash := some hC1, localContentHash := some [9, 9, 9] }

/-- A hash-mode project whose recorded local hash matches `treeC1`. -/
def pC1w : Project :=
  { localPath := "p", lastParkAt := some 0, localContentHash := some hC1 }

/-- A no-hash-mode project, parked at 100 with recorded park mtime 100. -/
def pC6 : Project :=
  { localPath := "p", lastParkAt := some 100, lastParkMtime := some 100, noHashMode := true }

/-- A tree last modified at 50 — before `pC6`'s park. -/
def treeC6 : FsTree := .dir 0 [("f.txt", .file 50 [1])]

/-- A tree whose only entry newer than mtime 50 is a symlink (mtime 100); its
sole regular file has mtime 10. -/
def treeC8 : FsTree := .dir 0 [("a.txt", .file 10 [1]), ("lnk", .symlink 100)]

/-- A project parked at 5 with recorded park mtime 50. -/
def pC8 : Project := { localPath := "p", lastParkAt := some 5, lastParkMtime := some 50 }

/-- Number of candidates the greedy loop of `SelectPruneCandidates` accepts
from the sorted pool, expressed through `shortestPrefixLen`. -/
def selCount (pool : List ProjectReport) (target : Int) : Nat :=
  shortestPrefixLen target ((sortOldestFirst pool).map (fun p => p.localSize)) 0

/-- Report of the oldest candidate: 10 bytes, last modified at 1. -/
def repA : ProjectReport := { name := "a", localPath := "la", localSize := 10, lastModified := 1 }

/-- Report of the middle candidate: 25 bytes, last modified at 2. -/
def repB : ProjectReport := { name := "b", localPath := "lb", localSize := 25, lastModified := 2 }

/-- Report of the newest candidate: 50 bytes, last modified at 3. -/
def repC : ProjectReport := { name := "c", localPath := "lc", localSize := 50, lastModified := 3 }

/-- The spec's target-stopping pool, deliberately out of order. -/
def poolC4 : List ProjectReport := [repB, repC, repA]

/-- An environment whose filesystem lookups fail (the verifier then reports
the local path missing — a re-verification failure). -/
def envW2 : ExecEnv :=
  { digest := idDigest, fsAt := fun _ => none, dirSize := fun _ => none,
    removeOk := fun _ => true, saveOk := true }

/-- A selected candidate report named "p". -/
def prW2 : ProjectReport := { name := "p", localPath := "lp", localSize := 5 }

/-- An executor trace whose state maps "p" to a never-parked project. -/
def tW2 : ExecTrace := { state := [("p", pNeverParked)] }

/-- A parked, grabbed, safe-by-mtime project for the save-failure scenario. -/
def spC5 : Project :=
  { localPath := "lp", lastParkAt := some 100, lastParkMtime := some 100,
    grabbedAt := some 1, isGrabbed := true }

/-- `spC5`'s local tree: one file last modified at 50, before the park. -/
def treeC5 : FsTree := .dir 0 [("f.txt", .file 50 [1])]

/-- The candidate report for `spC5`. -/
def prC5 : ProjectReport := { name := "p", localPath := "lp", localSize := 12 }

/-- State table holding `spC5` under "p". -/
def stateC5 : StateMap := [("p", spC5)]

/-- A selection of the single candidate `prC5` against a 100-byte target. -/
def resultC5 : PruneResult := { selectedProjects := [prC5], targetBytes := 100 }

/-- Mtime-mode, non-force options. -/
def optsC5 : PruneOpts := { noHash := true }

/-- Environment where the directory deletion succeeds but the state save
fails. -/
def envSaveFail : ExecEnv :=
  { digest := idDigest, fsAt := fun _ => some treeC5, dirSize := fun _ => some 12,
    removeOk := fun _ => true, saveOk := false }

/-- Environment where the directory deletion itself fails (ordinary failed
deletion). -/
def envRemoveFail : ExecEnv :=
  { digest := idDigest, fsAt := fun _ => some treeC5, dirSize := fun _ => some 12,
    removeOk := fun _ => false, saveOk := true }

/-- A single unselected interactive candidate. -/
def candW9 : PruneCandidate :=
  { report := { name := "x", localPath := "xl", localSize := 7 }, selected := false }

/-- An interactive selector over that one candidate, target 10 bytes. -/
def selW9 : InteractiveSelector := NewInteractiveSelector [candW9] 10

/-- A state table for the interactive session. -/
def stateW9 : StateMap := [("x", { localPath := "xl", lastParkAt := some 3 })]

/-- An environment for the interactive session. -/
def envW9 : ExecEnv :=
  { digest := idDigest, fsAt := fun _ => none, dirSize := fun _ => none,
    removeOk := fun _ => true, saveOk := true }

/-- C3: for every project whose `last_park_at` is absent, verification
returns unsafe with the never-parked status under every mode — both the
pre-deletion verifier (any `noHash` flag, any on-disk state) and the report
verifier (any `recomputeHashes` flag) — because the never-parked check is
evaluated first and is terminal. (`ForceSkip` is not a verifier mode: force
mode skips the verifier call in `ExecutePrune` altogether.) -/
theorem neverParked_always_unsafe (digest : List Nat → List Nat) (p : Project)
    (fs : Option FsTree) (noHash : Bool) (tree : FsTree) (lastModified : Int)
    (recomputeHashes : Bool) (h : p.lastParkAt = none) :
    verifyBeforeDeletion digest p fs noHash = some (false, "Never checked in") ∧
    determineSafetyStatus digest p tree lastModified recomputeHashes =
      (false, "Never checked in") := by
  constructor
  · simp [verifyBeforeDeletion, h]
  · simp [determineSafetyStatus, h]

/-- Witness for C3 at a concrete never-parked project. -/
theorem neverParked_always_unsafe_witness :
    verifyBeforeDeletion idDigest pNeverParked none false = some (false, "Never checked in") ∧
    determineSafetyStatus idDigest pNeverParked treeAny 0 true = (false, "Never checked in") :=
  neverParked_always_unsafe idDigest pNeverParked none false treeAny 0 true rfl

/-- C7: whenever the recursive traversal of a directory yields zero regular
files (symlink-only and subdirectory-only trees included), `ComputeProjectHash`
returns the empty-tree error and never a digest. -/
theorem emptyTree_hash_error (digest : List Nat → List Nat) (path : String) (root : FsTree)
    (h : collectFiles "" root = []) :
    ComputeProjectHash digest path root =
      Except.error ("project directory is empty or contains no regular files: " ++ path) ∧
    ∀ d, ComputeProjectHash digest path root ≠ Except.ok d := by
  have h1 : ComputeProjectHash digest path root =
      Except.error ("project directory is empty or contains no regular files: " ++ path) := by
    simp [ComputeProjectHash, h]
  refine ⟨h1, fun d hd => ?_⟩
  rw [h1] at hd
  exact Except.noConfusion hd

/-- Witness for C7 on a tree holding only a symlink and a FIFO-bearing
subdirectory. -/
theorem emptyTree_hash_error_witness :
    ComputeProjectHash idDigest "proj" treeLinksOnly =
      Except.error ("project directory is empty or contains no regular files: " ++ "proj") ∧
    ComputeProjectHash idDigest "proj" treeLinksOnly ≠ Except.ok [0] :=
  ⟨(emptyTree_hash_error idDigest "proj" treeLinksOnly (by decide)).1,
   (emptyTree_hash_error idDigest "proj" treeLinksOnly (by decide)).2 [0]⟩

/-- C10 (code bug): on a project whose local path exists but whose tree has
no non-directory entry, `GetNewestMtime`'s stored `os.FileInfo` stays nil
while the returned pointer is non-nil, so `verifyBeforeDeletion`'s
`newest == nil` guard cannot fire and `(*newest).ModTime()` panics — modelled
as the `none` result — instead of returning a `(bool, reason)` value. -/
theorem verifyBeforeDeletion_panics_on_fileless_tree :
    GetNewestMtime treeC10 = none ∧
    verifyBeforeDeletion idDigest pC10 (some treeC10) false = none ∧
    verifyBeforeDeletion idDigest pC10 (some treeC10) true = none := by decide

/-- C1 (counterexample): a hash-mode project whose recomputed tree hash
equals its recorded `archive_content_hash` — the claim then demands safe /
`SafeByHash` — yet both verifiers return unsafe, because the code compares
against `local_content_hash` (here different). -/
theorem hashVerify_archiveHash_cex :
    ComputeProjectHash idDigest pC1x.localPath treeC1 = Except.ok hC1 ∧
    pC1x.archiveContentHash = some hC1 ∧
    determineSafetyStatus idDigest pC1x treeC1 0 true = (false, "Has uncommitted work") ∧
    verifyBeforeDeletion idDigest pC1x (some treeC1) false =
      some (false, "Has uncommitted work") := by decide

/-- C1 (amended): for every project verified by the hash method
(`no_hash_mode` false, hash verification requested), the verifier recomputes
the tree hash of the local path and compares it against the project's
`local_content_hash`: in report verification a mismatch yields unsafe
("Has uncommitted work"), an absent recorded local hash yields unsafe
("Missing hash data"), and a match yields safe; in pre-deletion verification
an absent or mismatching local hash yields unsafe ("Has uncommitted work")
and a match yields safe. -/
theorem hashVerify_uses_localContentHash (digest : List Nat → List Nat) (p : Project)
    (tree : FsTree) (lastModified a : Int) (d : List Nat)
    (hpark : p.lastParkAt = some a) (hmode : p.noHashMode = false)
    (hhash : ComputeProjectHash digest p.localPath tree = Except.ok d) :
    determineSafetyStatus digest p tree lastModified true =
      (match p.localContentHash with
       | none => (false, "Missing hash data")
       | some lh =>
         if d = lh then (true, "Safe to delete") else (false, "Has uncommitted work")) ∧
    (∀ lmv, GetNewestMtime tree = some lmv →
      verifyBeforeDeletion digest p (some tree) false =
        some (match p.localContentHash with
              | none => (false, "Has uncommitted work")
              | some lh =>
                if d = lh then (true, "Safe to delete")
                else (false, "Has uncommitted work"))) := by
  constructor
  · cases hlc : p.localContentHash with
    | none => simp [determineSafetyStatus, hpark, hmode, hhash, hlc]
    | some lh =>
      by_cases hd : d = lh
      · simp [determineSafetyStatus, hpark, hmode, hhash, hlc, hd]
      · simp [determineSafetyStatus, hpark, hmode, hhash, hlc, hd]
  · intro lmv hnm
    cases hlc : p.localContentHash with
    | none => simp [verifyBeforeDeletion, hpark, hmode, hhash, hlc, hnm]
    | some lh =>
      by_cases hd : d = lh
      · simp [verifyBeforeDeletion, hpark, hmode, hhash, hlc, hnm, hd]
      · simp [verifyBeforeDeletion, hpark, hmode, hhash, hlc, hnm, hd]

/-- Witness for the amended C1 at a matching-local-hash project. -/
theorem hashVerify_uses_localContentHash_witness :
    determineSafetyStatus idDigest pC1w treeC1 0 true = (true, "Safe to delete") ∧
    verifyBeforeDeletion idDigest pC1w (some treeC1) false = some (true, "Safe to delete") := by
  have h := hashVerify_uses_localContentHash idDigest pC1w treeC1 0 0 hC1 rfl rfl (by decide)
  constructor
  · rw [h.1]; decide
  · rw [h.2 10 (by decide)]; decide

/-- C6 (counterexample): a `no_hash_mode` project for which hash verification
is requested (`recomputeHashes = true` in the report verifier, `noHash =
false` in the pre-deletion verifier) is not rejected: both verifiers answer
with a definite mtime-method verdict — here safe — identical to an explicit
mtime-only request; no `HashUnavailable` rejection exists in the code. -/
theorem noHashMode_hashRequest_not_rejected_cex :
    pC6.noHashMode = true ∧
    determineSafetyStatus idDigest pC6 treeC6 50 true = (true, "Safe to delete") ∧
    determineSafetyStatus idDigest pC6 treeC6 50 true =
      determineSafetyStatus idDigest pC6 treeC6 50 false ∧
    verifyBeforeDeletion idDigest pC6 (some treeC6) false =
      some (true, "Safe to delete") := by decide

/-- C6 (amended): for every project with `no_hash_mode` true, a request for
hash verification silently falls back to the mtime method — both verifiers
return exactly what they return for an explicit mtime-only request. -/
theorem noHashMode_hashRequest_falls_back (digest : List Nat → List Nat) (p : Project)
    (tree : FsTree) (lastModified : Int) (fs : Option FsTree)
    (h : p.noHashMode = true) :
    determineSafetyStatus digest p tree lastModified true =
      determineSafetyStatus digest p tree lastModified false ∧
    verifyBeforeDeletion digest p fs false = verifyBeforeDeletion digest p fs true := by
  constructor
  · cases hp : p.lastParkAt <;> simp [determineSafetyStatus, hp, h]
  · cases hp : p.lastParkAt with
    | none => simp [verifyBeforeDeletion, hp]
    | some a =>
      cases fs with
      | none => simp [verifyBeforeDeletion, hp]
      | some tree =>
        cases hg : GetNewestMtime tree with
        | none => simp [verifyBeforeDeletion, hp, hg]
        | some lm => simp [verifyBeforeDeletion, hp, hg, h]

/-- Witness for the amended C6 at a concrete no-hash-mode project. -/
theorem noHashMode_hashRequest_falls_back_witness :
    determineSafetyStatus idDigest pC6 treeC6 50 true =
      determineSafetyStatus idDigest pC6 treeC6 50 false ∧
    verifyBeforeDeletion idDigest pC6 (some treeC6) false =
      verifyBeforeDeletion idDigest pC6 (some treeC6) true :=
  noHashMode_hashRequest_falls_back idDigest pC6 treeC6 50 (some treeC6) rfl

/-- C8 (counterexample): the mtime method does not share the hash engine's
symlink-skipping traversal. On a tree whose only fresh entry is a symlink,
the symlink-skipping newest mtime demanded by the claim is 10, not strictly
after the recorded park mtime 50 — so the claim predicts safe — yet
`GetNewestMtime` counts the symlink (100) and the verifier returns unsafe. -/
theorem mtimeMethod_counts_symlinks_cex :
    pC8.lastParkMtime = some 50 ∧
    specNewestMtimeSkippingSymlinks treeC8 = some 10 ∧
    ¬ ((10 : Int) > 50) ∧
    GetNewestMtime treeC8 = some 100 ∧
    verifyBeforeDeletion idDigest pC8 (some treeC8) true =
      some (false, "Has uncommitted work") := by decide

/-- C8 (amended): the mtime method recomputes the newest modification time
over every non-directory entry under the local path — symlinks' own mtimes
included, unlike the hash engine's traversal — and returns unsafe
("Has uncommitted work") exactly when that time is strictly after
`last_park_mtime` (falling back to `last_park_at` when absent), safe
("Safe to delete") otherwise. -/
theorem mtimeMethod_strict_after (digest : List Nat → List Nat) (p : Project)
    (tree : FsTree) (noHash : Bool) (a lm : Int)
    (hpark : p.lastParkAt = some a)
    (hmode : noHash = true ∨ p.noHashMode = true)
    (hnm : GetNewestMtime tree = some lm) :
    verifyBeforeDeletion digest p (some tree) noHash =
      some (if lm > p.lastParkMtime.getD a then (false, "Has uncommitted work")
            else (true, "Safe to delete")) := by
  have hcond : (noHash || p.noHashMode) = true := by
    cases hmode with
    | inl h => simp [h]
    | inr h => simp [h]
  cases hlm : p.lastParkMtime with
  | none =>
    by_cases hgt : lm > a
    · simp [verifyBeforeDeletion, hpark, hnm, hcond, hlm, hgt]
    · simp [verifyBeforeDeletion, hpark, hnm, hcond, hlm, hgt]
  | some m =>
    by_cases hgt : lm > m
    · simp [verifyBeforeDeletion, hpark, hnm, hcond, hlm, hgt]
    · simp [verifyBeforeDeletion, hpark, hnm, hcond, hlm, hgt]

/-- Witness for the amended C8 on the symlink-bearing tree. -/
theorem mtimeMethod_strict_after_witness :
    verifyBeforeDeletion idDigest pC8 (some treeC8) true =
      some (if (100 : Int) > pC8.lastParkMtime.getD 5 then (false, "Has uncommitted work")
            else (true, "Safe to delete")) :=
  mtimeMethod_strict_after idDigest pC8 treeC8 true 5 100 rfl (Or.inl rfl) (by decide)

/-- C2: in the prune-execution loop, when force mode is off, the safety
verifier is invoked again for the candidate immediately before deletion, and
a failed re-verification records the candidate as a failed deletion, invokes
the progress callback with `success = false` and `freed = 0`, leaves the
deleted list, freed total and project state untouched, and execution
continues with the remaining candidates — the failure never aborts the
batch. -/
theorem reverify_failure_recorded_and_continues
    (env : ExecEnv) (opts : PruneOpts) (target : Int) (t : ExecTrace)
    (pr : ProjectReport) (rest : List ProjectReport) (sp : Project) (r : String)
    (hforce : opts.force = false)
    (hlook : lookupProj t.state pr.name = some sp)
    (hver : verifyBeforeDeletion env.digest sp (env.fsAt sp.localPath) opts.noHash =
      some (false, r)) :
    execStep env opts target t pr = some (recordFailure t pr, false) ∧
    execLoop env opts target (pr :: rest) t =
      execLoop env opts target rest (recordFailure t pr) ∧
    (recordFailure t pr).failedDeletions = t.failedDeletions ++ [pr] ∧
    (recordFailure t pr).progress = t.progress ++ [(pr, false, 0)] ∧
    (recordFailure t pr).deleted = t.deleted ∧
    (recordFailure t pr).state = t.state ∧
    (recordFailure t pr).totalFreed = t.totalFreed := by
  have hstep : execStep env opts target t pr = some (recordFailure t pr, false) := by
    simp [execStep, hlook, hforce, hver]
  refine ⟨hstep, ?_, rfl, rfl, rfl, rfl, rfl⟩
  simp [execLoop, hstep]

/-- Witness for C2: a candidate whose re-verification fails (never-parked
project) is recorded and the loop moves on. -/
theorem reverify_failure_recorded_and_continues_witness :
    execStep envW2 {} 100 tW2 prW2 = some (recordFailure tW2 prW2, false) ∧
    execLoop envW2 {} 100 [prW2, prW2] tW2 =
      execLoop envW2 {} 100 [prW2] (recordFailure tW2 prW2) ∧
    (recordFailure tW2 prW2).failedDeletions = tW2.failedDeletions ++ [prW2] ∧
    (recordFailure tW2 prW2).progress = tW2.progress ++ [(prW2, false, 0)] ∧
    (recordFailure tW2 prW2).deleted = tW2.deleted ∧
    (recordFailure tW2 prW2).state = tW2.state ∧
    (recordFailure tW2 prW2).totalFreed = tW2.totalFreed :=
  reverify_failure_recorded_and_continues envW2 {} 100 tW2 prW2 [prW2] pNeverParked
    "Never checked in" rfl (by decide) (by decide)

/-- C5 (code bug): when the state save fails after the candidate's directory
was deleted, `deleteSingleProject` returns the distinct error "deleted
directory but failed to save state", but `ExecutePrune` discards that error
and records an ordinary failed deletion — the resulting deleted / failed /
freed / progress report is byte-for-byte the one an ordinary filesystem
deletion failure produces, contradicting the code's own comment that the
inconsistency "is logged as a failure so the user knows to investigate" and
the spec's distinct, higher-severity surfacing. -/
theorem stateSaveFailure_reported_as_ordinary_failure :
    (deleteSingleProject envSaveFail spC5 prC5 "p" stateC5).1 =
      Except.error "deleted directory but failed to save state" ∧
    (ExecutePrune envSaveFail stateC5 resultC5 optsC5).map ExecTrace.deleted = some [] ∧
    (ExecutePrune envSaveFail stateC5 resultC5 optsC5).map ExecTrace.failedDeletions =
      some [prC5] ∧
    (ExecutePrune envSaveFail stateC5 resultC5 optsC5).map ExecTrace.totalFreed = some 0 ∧
    (ExecutePrune envSaveFail stateC5 resultC5 optsC5).map ExecTrace.progress =
      some [(prC5, false, 0)] ∧
    (ExecutePrune envRemoveFail stateC5 resultC5 optsC5).map ExecTrace.deleted =
      (ExecutePrune envSaveFail stateC5 resultC5 optsC5).map ExecTrace.deleted ∧
    (ExecutePrune envRemoveFail stateC5 resultC5 optsC5).map ExecTrace.failedDeletions =
      (ExecutePrune envSaveFail stateC5 resultC5 optsC5).map ExecTrace.failedDeletions ∧
    (ExecutePrune envRemoveFail stateC5 resultC5 optsC5).map ExecTrace.totalFreed =
      (ExecutePrune envSaveFail stateC5 resultC5 optsC5).map ExecTrace.totalFreed ∧
    (ExecutePrune envRemoveFail stateC5 resultC5 optsC5).map ExecTrace.progress =
      (ExecutePrune envSaveFail stateC5 resultC5 optsC5).map ExecTrace.progress := by decide

/-- C9: quitting the interactive selector (`q` or escape) sets the terminal
quitting flag and ends the loop, and a session that ends quitting — whatever
was selected before — is discarded by `runInteractiveMode` before any
deletion or state mutation: the outcome is `cancelled` and the project table
is returned unchanged (`ExecutePrune` only runs in the `executed` arm). -/
theorem interactive_quit_no_side_effects
    (sel s : InteractiveSelector) (keys : List Nat)
    (env : ExecEnv) (opts : PruneOpts) (state : StateMap) (result : PruneResult)
    (response : String)
    (hq : (runKeys s keys).quitting = true) :
    handleInput sel 113 = ({ sel with quitting := true }, false) ∧
    handleInput sel 27 = ({ sel with quitting := true }, false) ∧
    runInteractiveMode env opts state result (runKeys s keys) response =
      (InteractiveOutcome.cancelled, state) := by
  refine ⟨?_, ?_, ?_⟩
  · simp [handleInput]
  · simp [handleInput]
  · simp [runInteractiveMode, hq]

/-- Witness for C9: toggle a selection, then quit with `q`; nothing is
executed and the state table comes back unchanged. -/
theorem interactive_quit_no_side_effects_witness :
    handleInput selW9 113 = ({ selW9 with quitting := true }, false) ∧
    handleInput selW9 27 = ({ selW9 with quitting := true }, false) ∧
    runInteractiveMode envW9 {} stateW9 {} (runKeys selW9 [32, 113]) "y" =
      (InteractiveOutcome.cancelled, stateW9) :=
  interactive_quit_no_side_effects selW9 selW9 [32, 113] envW9 {} stateW9 {} "y" (by decide)

/-- Every prefix strictly shorter than the greedy stopping point accumulates
less than the target. -/
theorem shortestPrefixLen_lt (target : Int) :
    ∀ (sizes : List Int) (acc : Int) (j : Nat),
      j < shortestPrefixLen target sizes acc → acc + (sizes.take j).sum < target := by
  intro sizes
  induction sizes with
  | nil => intro acc j hj; simp [shortestPrefixLen] at hj
  | cons s rest ih =>
    intro acc j hj
    by_cases hacc : acc ≥ target
    · simp [shortestPrefixLen, hacc] at hj
    · rw [shortestPrefixLen, if_neg hacc] at hj
      cases j with
      | zero => simpa using lt_of_not_ge hacc
      | succ j' =>
        have hj' : j' < shortestPrefixLen target rest (acc + s) := by omega
        have hrec := ih (acc + s) j' hj'
        simp only [List.take_succ_cons, List.sum_cons]
        omega

/-- The greedy stopping point either accumulates at least the target or is
the whole list. -/
theorem shortestPrefixLen_reach (target : Int) :
    ∀ (sizes : List Int) (acc : Int),
      target ≤ acc + (sizes.take (shortestPrefixLen target sizes acc)).sum ∨
      shortestPrefixLen target sizes acc = sizes.length := by
  intro sizes
  induction sizes with
  | nil => intro acc; right; rfl
  | cons s rest ih =>
    intro acc
    by_cases hacc : acc ≥ target
    · left; simp [shortestPrefixLen, hacc]
    · rw [shortestPrefixLen, if_neg hacc]
      cases ih (acc + s) with
      | inl h =>
        left
        simp only [List.take_succ_cons, List.sum_cons]
        omega
      | inr h => right; simp [h]

/-- The greedy loop of `SelectPruneCandidates` selects exactly the
`shortestPrefixLen` prefix and accumulates its sizes. -/
theorem greedyMark_spec (target : Int) :
    ∀ (l : List ProjectReport) (acc : Int),
      (greedyMark target l acc).2.1 =
        l.take (shortestPrefixLen target (l.map (fun p => p.localSize)) acc) ∧
      (greedyMark target l acc).2.2 =
        acc + ((l.map (fun p => p.localSize)).take
          (shortestPrefixLen target (l.map (fun p => p.localSize)) acc)).sum := by
  intro l
  induction l with
  | nil => intro acc; simp [greedyMark, shortestPrefixLen]
  | cons p rest ih =>
    intro acc
    by_cases hacc : acc ≥ target
    · simp [greedyMark, shortestPrefixLen, hacc]
    · have h := ih (acc + p.localSize)
      rw [greedyMark, if_neg hacc]
      simp only [List.map_cons, shortestPrefixLen, if_neg hacc, List.take_succ_cons,
        List.sum_cons]
      refine ⟨by rw [h.1], ?_⟩
      rw [h.2]
      omega

/-- Whenever every size is nonnegative and the total falls short of the
target, the greedy stopping point is the whole list. -/
theorem shortestPrefixLen_full (target : Int) (m : List Int)
    (hpos : ∀ x ∈ m, 0 ≤ x) (hsum : m.sum < target) :
    shortestPrefixLen target m 0 = m.length := by
  cases shortestPrefixLen_reach target m 0 with
  | inr h => exact h
  | inl h =>
    exfalso
    have hsplit := List.sum_take_add_sum_drop m (shortestPrefixLen target m 0)
    have hdrop : 0 ≤ (m.drop (shortestPrefixLen target m 0)).sum :=
      List.sum_nonneg (fun x hx => hpos x ((List.drop_subset _ m) hx))
    omega

/-- C4: candidate selection sorts the pool ascending by last-modified time
(oldest first; the sorted pool is a permutation of the input) and selects
exactly the shortest prefix of that order whose accumulated byte size reaches
the target: every shorter prefix accumulates less than the target, and the
selected prefix either reaches the target or is the whole pool. When the pool
(nonempty, with the nonnegative sizes directories have) is exhausted before
the target is reached, every candidate is selected and `insufficientSpace` is
set. In particular, for candidates of sizes 10, 25, 50 (oldest first) and
target 30, exactly the first two are selected. -/
theorem selection_oldest_first_stops_at_target (pool : List ProjectReport) (target : Int) :
    List.Sorted oldestFirstLe (sortOldestFirst pool) ∧
    (sortOldestFirst pool).Perm pool ∧
    (SelectPruneCandidates pool target).selectedProjects =
      (sortOldestFirst pool).take (selCount pool target) ∧
    (∀ j, j < selCount pool target →
      (((sortOldestFirst pool).map (fun p => p.localSize)).take j).sum < target) ∧
    (target ≤ (((sortOldestFirst pool).map (fun p => p.localSize)).take
        (selCount pool target)).sum ∨
      selCount pool target = pool.length) ∧
    ((∀ p ∈ pool, 0 ≤ p.localSize) →
      ((sortOldestFirst pool).map (fun p => p.localSize)).sum < target → pool ≠ [] →
      (SelectPruneCandidates pool target).selectedProjects = sortOldestFirst pool ∧
      (SelectPruneCandidates pool target).insufficientSpace = true) ∧
    (SelectPruneCandidates poolC4 30).selectedProjects = [repA, repB] := by
  have hsorted := List.sorted_insertionSort oldestFirstLe pool
  have hperm := List.perm_insertionSort oldestFirstLe pool
  have hlen : (sortOldestFirst pool).length = pool.length := hperm.length_eq
  have hsel : (SelectPruneCandidates pool target).selectedProjects =
      (sortOldestFirst pool).take (selCount pool target) := by
    by_cases hz : (sortOldestFirst pool).length = 0
    · have hnil : sortOldestFirst pool = [] := List.length_eq_zero.mp hz
      simp [SelectPruneCandidates, hz, hnil, selCount]
    · have hg := (greedyMark_spec target (sortOldestFirst pool) 0).1
      simp [SelectPruneCandidates, hz, selCount, hg]
  refine ⟨hsorted, hperm, hsel, ?_, ?_, ?_, by decide⟩
  · intro j hj
    simp only [selCount] at hj
    have h := shortestPrefixLen_lt target
      ((sortOldestFirst pool).map (fun p => p.localSize)) 0 j hj
    omega
  · simp only [selCount]
    rcases shortestPrefixLen_reach target
        ((sortOldestFirst pool).map (fun p => p.localSize)) 0 with h | h
    · left; omega
    · right; rw [h, List.length_map, hlen]
  · intro hpos hsum hne
    have hz : ¬ (sortOldestFirst pool).length = 0 := by
      rw [hlen]
      intro h0
      exact hne (List.length_eq_zero.mp h0)
    have hposm : ∀ x ∈ (sortOldestFirst pool).map (fun p => p.localSize), 0 ≤ x := by
      intro x hx
      rcases List.mem_map.mp hx with ⟨p, hp, rfl⟩
      exact hpos p (hperm.mem_iff.mp hp)
    have hfull : shortestPrefixLen target
        ((sortOldestFirst pool).map (fun p => p.localSize)) 0 =
        ((sortOldestFirst pool).map (fun p => p.localSize)).length :=
      shortestPrefixLen_full target _ hposm hsum
    have htake : (sortOldestFirst pool).take (selCount pool target) =
        sortOldestFirst pool := by
      simp only [selCount]
      rw [hfull, List.length_map]
      exact (sortOldestFirst pool).take_length
    have htot : (greedyMark target (sortOldestFirst pool) 0).2.2 =
        ((sortOldestFirst pool).map (fun p => p.localSize)).sum := by
      rw [(greedyMark_spec target (sortOldestFirst pool) 0).2, hfull,
        ((sortOldestFirst pool).map (fun p => p.localSize)).take_length]
      omega
    refine ⟨by rw [hsel, htake], ?_⟩
    simp only [SelectPruneCandidates, hz, if_neg, ite_false]
    simp [hz, htot, hsum]

/-- Witness for C4: the spec's concrete pools — sizes 10/25/50 with target
30 stop after the first two, and a 35-byte pool with target 1000 selects
everything with the insufficient-space flag set. -/
theorem selection_oldest_first_stops_at_target_witness :
    (SelectPruneCandidates poolC4 30).selectedProjects = [repA, repB] ∧
    ((((sortOldestFirst poolC4).map (fun p => p.localSize)).take 1).sum < 30) ∧
    ((SelectPruneCandidates [repA, repB] 1000).selectedProjects =
        sortOldestFirst [repA, repB] ∧
      (SelectPruneCandidates [repA, repB] 1000).insufficientSpace = true) :=
  ⟨(selection_oldest_first_stops_at_target poolC4 30).2.2.2.2.2.2,
   (selection_oldest_first_stops_at_target poolC4 30).2.2.2.1 1 (by decide),
   (selection_oldest_first_stops_at_target [repA, repB] 1000).2.2.2.2.2.1
     (by decide) (by decide) (by decide)⟩
